import Mathlib

/-!
Verification of the randomized-restart IK solving strategy of
`openrr-planner/src/ik.rs` (`RandomInitializeIkSolver::solve_with_constraints`
and `get_reachable_region`), against the repository specification.

Shallow embedding conventions:
* Joint angles are modelled as rational numbers (`ℚ`); the source is generic
  over `T: RealField` and none of the control flow verified here depends on
  real-valued (as opposed to ordered-field) arithmetic.  The angle-wrapping
  helper `modify_to_nearest_angle` (which genuinely involves `π`) is modelled
  separately over `ℝ`.
* The IK engine (`self.solver`, an arbitrary `InverseKinematicsSolver` trait
  object), the random sampler `generate_random_joint_positions_from_limits`,
  the repairer `modify_to_nearest_angle` (both from `crate::funcs`, a module
  of this repository that is not under `src/`), and the arm's joint-setting
  operations (from the external `k` crate) are collaborators: they are passed
  in as a `SolveEnv` record of functions.  A possibly stateful engine is
  modelled as a function of its invocation count; the injectable randomness
  source is modelled as a function of the draw count.
* `Result<(), k::Error>` becomes `Option KError` with `none` for `Ok(())`.
-/

/-- 3-vector of rationals: models `na::Vector3<T>` (the residual diagnostics
carried by `k::Error::NotConvergedError` and grid corner points). -/
structure Vec3Q where
  x : ℚ
  y : ℚ
  z : ℚ
deriving DecidableEq

/-- Models `k::Error`, the error type returned by the engine and by the
joint-setting operations.  `notConverged` models
`k::Error::NotConvergedError { num_tried, position_diff, rotation_diff }`
(a recoverable convergence failure); the other two variants model the
structural errors named by the specification: a configuration-length
mismatch and an out-of-bounds value on a bounded joint. -/
inductive KError where
  | notConverged (num_tried : Nat) (position_diff rotation_diff : Vec3Q)
  | sizeMismatch (input required : Nat)
  | outOfLimits (position : ℚ)
deriving DecidableEq

/-- The initial value of the mutable `result` variable of
`solve_with_constraints` (ik.rs lines 66-70):
`Err(NotConvergedError { num_tried: 0, position_diff: zeros, rotation_diff: zeros })`. -/
def initialNotConverged : KError :=
  KError.notConverged 0 ⟨0, 0, 0⟩ ⟨0, 0, 0⟩

/-- Outcome of one engine invocation
(`self.solver.solve_with_constraints(arm, target_pose, constraints)`):
the returned `Result` (`none` = `Ok(())`) together with the arm's joint
configuration after the call — the engine mutates the arm in place, leaving
it at the solution on success and at its last iterate on failure. -/
structure EngineStep where
  result : Option KError
  cfg : List ℚ
deriving DecidableEq

/-- The external collaborators consumed by
`RandomInitializeIkSolver::solve_with_constraints`, with the target pose and
constraints (opaque, passed through unchanged) folded in.

* `engine k c`: the injected single-shot IK solver's behaviour on its
  `k`-th invocation when the arm currently holds configuration `c`.
* `sample i`: the `i`-th draw of
  `generate_random_joint_positions_from_limits(&limits)` (ik.rs line 91);
  the sampler's randomness source is injectable, so the draw sequence is a
  parameter.
* `repair reference candidate`: `modify_to_nearest_angle` (ik.rs line 92).
* `setWC c`: `arm.set_joint_positions_with_constraints(&c, constraints)`
  (ik.rs line 93) — a fallible, validated set; on `none` (success) the arm
  is set to `c`, on `some e` (failure) the arm is left unchanged.
* `setV c`: `arm.set_joint_positions(&c)` (ik.rs line 101) — the validated
  set used to restore the initial angles; same success/failure convention. -/
structure SolveEnv where
  engine : Nat → List ℚ → EngineStep
  sample : Nat → List ℚ
  repair : List ℚ → List ℚ → List ℚ
  setWC : List ℚ → Option KError
  setV : List ℚ → Option KError

/-- The observable outcome of `solve_with_constraints`: the returned
`Result` (`none` = success), the arm's joint configuration on return, and
the ghost counters instrumenting the run — how many times the engine was
invoked and how many random configurations were drawn. -/
structure SolveOut where
  result : Option KError
  cfg : List ℚ
  engineCalls : Nat
  draws : Nat
deriving DecidableEq

/-- The retry loop of `solve_with_constraints` (ik.rs lines 74-102),
translated with the mutable state made explicit: `remaining` iterations of
the `for try_idx in 0..num_max_try` loop are left, the arm currently holds
`cfg`, the `result` variable currently holds `Err lastErr`, and the ghost
counters stand at `calls` and `draws`.

Per iteration (ik.rs lines 81-93): invoke the engine; on `Ok` return at once
with the arm at the engine's output; on `Err e` store `e` in `result`, draw
a fresh configuration, repair it toward `initialAngles`, and write it with
`set_joint_positions_with_constraints` — whose error, if any, is propagated
by `?`, aborting the loop with the arm still at the engine's failure state.
Note the draw/repair/write happens after every failed attempt, the last one
included: the loop body has no `try_idx + 1 < num_max_try` guard.
After the loop (ik.rs lines 101-102): restore `initialAngles` with the
validated `set_joint_positions` — whose error is likewise propagated by
`?` — and return the stored final failure. -/
def solveFrom (env : SolveEnv) (initialAngles : List ℚ) :
    Nat → List ℚ → KError → Nat → Nat → SolveOut
  | 0, cfg, lastErr, calls, draws =>
      match env.setV initialAngles with
      | some e => ⟨some e, cfg, calls, draws⟩
      | none => ⟨some lastErr, initialAngles, calls, draws⟩
  | remaining + 1, cfg, _lastErr, calls, draws =>
      let step := env.engine calls cfg
      match step.result with
      | none => ⟨none, step.cfg, calls + 1, draws⟩
      | some e =>
          let repaired := env.repair initialAngles (env.sample draws)
          match env.setWC repaired with
          | some e2 => ⟨some e2, step.cfg, calls + 1, draws + 1⟩
          | none => solveFrom env initialAngles remaining repaired e (calls + 1) (draws + 1)

/-- `RandomInitializeIkSolver::solve_with_constraints` (ik.rs lines 59-103):
snapshot `initial_angles = arm.joint_positions()` (line 72), initialize
`result` to the zero `NotConvergedError` (lines 66-70), then run the retry
loop.  `armPositions` is the arm's joint configuration at the call. -/
def solve_with_constraints (env : SolveEnv) (numMaxTry : Nat)
    (armPositions : List ℚ) : SolveOut :=
  solveFrom env armPositions numMaxTry armPositions initialNotConverged 0 0

/-- The arm configuration at the start of attempt `j` (0-indexed) along the
main path of the retry loop, when every joint-set succeeds: attempt 0 runs
from the snapshot itself; attempt `j + 1` runs from the `j`-th random draw
repaired toward the snapshot — the reference of the repair is always
`initial_angles`, never the most recent failed trial (ik.rs line 92). -/
def trialCfg (env : SolveEnv) (init : List ℚ) : Nat → List ℚ
  | 0 => init
  | j + 1 => env.repair init (env.sample j)

/-- The value held by the `result` variable when attempt `m` begins:
initially the zero `NotConvergedError`, afterwards the error of the
latest completed (failed) attempt. -/
def lastErrAt (env : SolveEnv) (init : List ℚ) : Nat → KError
  | 0 => initialNotConverged
  | j + 1 => ((env.engine j (trialCfg env init j)).result).getD initialNotConverged

/-- Main trace lemma: if the engine fails on attempts `0 .. m-1` (each run
from the corresponding trial configuration) and the
`set_joint_positions_with_constraints` write succeeds on each of the first
`m` draw/repair/write transitions, then after `m` full iterations the loop
stands at attempt `m` with the arm at `trialCfg m`, the stored failure at
`lastErrAt m`, and both counters at `m`. -/
lemma solveFrom_advance (env : SolveEnv) (init : List ℚ) (n m : Nat) (hm : m ≤ n)
    (hFail : ∀ j, j < m → ((env.engine j (trialCfg env init j)).result).isSome)
    (hSet : ∀ j, j < m → env.setWC (env.repair init (env.sample j)) = none) :
    solve_with_constraints env n init =
      solveFrom env init (n - m) (trialCfg env init m) (lastErrAt env init m) m m := by
  induction m with
  | zero =>
      simp [solve_with_constraints, trialCfg, lastErrAt]
  | succ m ih =>
      have hmn : m < n := hm
      rw [ih (le_of_lt hmn) (fun j hj => hFail j (Nat.lt_succ_of_lt hj))
          (fun j hj => hSet j (Nat.lt_succ_of_lt hj))]
      have hrem : n - m = (n - (m + 1)) + 1 := by omega
      rw [hrem]
      obtain ⟨e, he⟩ := Option.isSome_iff_exists.mp (hFail m (Nat.lt_succ_self m))
      simp only [solveFrom, he, hSet m (Nat.lt_succ_self m)]
      have hl : lastErrAt env init (m + 1) = e := by
        show ((env.engine m (trialCfg env init m)).result).getD initialNotConverged = e
        rw [he]
        rfl
      rw [hl]
      rfl

/-- Claim C9 (confirmed): with `num_max_try = 0` and a successful restore,
`solve_with_constraints` performs zero engine invocations and zero random
draws, leaves the arm's joint configuration unchanged, and returns the
not-converged failure outcome with `num_tried = 0` and zero position and
rotation residual vectors (ik.rs lines 66-74, 101-102). -/
theorem solve_zero_tries (env : SolveEnv) (init : List ℚ)
    (hV : env.setV init = none) :
    solve_with_constraints env 0 init =
      ⟨some (KError.notConverged 0 ⟨0, 0, 0⟩ ⟨0, 0, 0⟩), init, 0, 0⟩ := by
  simp [solve_with_constraints, solveFrom, hV, initialNotConverged]

/-- Claim C4 (confirmed): if the engine fails on attempts `1 .. k-1` and
succeeds on attempt `k` (1-indexed; each attempt run from its trial
configuration, the intervening restart writes succeeding), then
`solve_with_constraints` invokes the engine exactly `k` times, draws exactly
`k - 1` random configurations (so no randomization after the success),
returns success, and leaves the arm at the configuration produced by the
successful attempt (ik.rs lines 81-90). -/
theorem solve_success_at_k (env : SolveEnv) (init : List ℚ) (n k : Nat)
    (hk : 1 ≤ k) (hkn : k ≤ n)
    (hFail : ∀ j, j + 1 < k → ((env.engine j (trialCfg env init j)).result).isSome)
    (hSet : ∀ j, j + 1 < k → env.setWC (env.repair init (env.sample j)) = none)
    (hSucc : (env.engine (k - 1) (trialCfg env init (k - 1))).result = none) :
    solve_with_constraints env n init =
      ⟨none, (env.engine (k - 1) (trialCfg env init (k - 1))).cfg, k, k - 1⟩ := by
  obtain ⟨m, rfl⟩ : ∃ m, k = m + 1 := ⟨k - 1, by omega⟩
  rw [solveFrom_advance env init n m (by omega) (fun j hj => hFail j (by omega))
      (fun j hj => hSet j (by omega))]
  have hrem : n - m = (n - (m + 1)) + 1 := by omega
  rw [hrem]
  have hs : (env.engine m (trialCfg env init m)).result = none := by
    simpa using hSucc
  simp only [solveFrom, hs]
  simp

/-- Claim C5 (confirmed): when all `num_max_try = n ≥ 1` attempts fail to
converge (the restart writes and the final restore succeeding), the value
returned is exactly the failure outcome produced by the final (`n`-th)
engine invocation — earlier attempts' failures are not retained — and the
arm is restored to the pre-call snapshot (ik.rs lines 81-83, 101-102). -/
theorem solve_returns_final_failure (env : SolveEnv) (init : List ℚ) (n : Nat)
    (hn : 1 ≤ n)
    (hFail : ∀ j, j < n → ((env.engine j (trialCfg env init j)).result).isSome)
    (hSet : ∀ j, j < n → env.setWC (env.repair init (env.sample j)) = none)
    (hV : env.setV init = none) :
    (solve_with_constraints env n init).result =
      (env.engine (n - 1) (trialCfg env init (n - 1))).result ∧
    (solve_with_constraints env n init).cfg = init := by
  obtain ⟨m, rfl⟩ : ∃ m, n = m + 1 := ⟨n - 1, by omega⟩
  rw [solveFrom_advance env init (m + 1) (m + 1) le_rfl hFail hSet]
  obtain ⟨e, he⟩ := Option.isSome_iff_exists.mp (hFail m (by omega))
  have hl : lastErrAt env init (m + 1) = e := by
    show ((env.engine m (trialCfg env init m)).result).getD initialNotConverged = e
    rw [he]
    rfl
  simp only [Nat.sub_self, solveFrom, hV, hl]
  simp [he]

/-- Claim C6 (confirmed): if the `set_joint_positions_with_constraints`
write raises a structural error on the transition after failed attempt `i`
(earlier transitions succeeding), `solve_with_constraints` returns that very
error immediately: the retry loop is aborted with engine invocations and
random draws both stopped at `i + 1`, and the structural error is never
converted into or retried as a convergence failure (ik.rs line 93). -/
theorem solve_aborts_on_set_error (env : SolveEnv) (init : List ℚ)
    (n i : Nat) (e : KError) (hi : i < n)
    (hFail : ∀ j, j ≤ i → ((env.engine j (trialCfg env init j)).result).isSome)
    (hSet : ∀ j, j < i → env.setWC (env.repair init (env.sample j)) = none)
    (hSetFail : env.setWC (env.repair init (env.sample i)) = some e) :
    solve_with_constraints env n init =
      ⟨some e, (env.engine i (trialCfg env init i)).cfg, i + 1, i + 1⟩ := by
  rw [solveFrom_advance env init n i (le_of_lt hi)
      (fun j hj => hFail j (le_of_lt hj)) hSet]
  have hrem : n - i = (n - (i + 1)) + 1 := by omega
  rw [hrem]
  obtain ⟨e0, he⟩ := Option.isSome_iff_exists.mp (hFail i le_rfl)
  simp only [solveFrom, he, hSetFail]

/-- Claim C2 (amended, proved): a fresh random configuration is drawn,
repaired, and written after every failed attempt — including the final one,
since the loop body has no `i + 1 < num_max_try` guard — so a fully failing
run with `num_max_try = n` performs exactly `n` engine invocations and
exactly `n` random draws; in particular `num_max_try = 1` with a failing
engine performs one engine invocation and one randomization (ik.rs
lines 74-94). -/
theorem solve_draws_after_every_failure (env : SolveEnv) (init : List ℚ)
    (n : Nat)
    (hFail : ∀ j, j < n → ((env.engine j (trialCfg env init j)).result).isSome)
    (hSet : ∀ j, j < n → env.setWC (env.repair init (env.sample j)) = none)
    (hV : env.setV init = none) :
    (solve_with_constraints env n init).engineCalls = n ∧
    (solve_with_constraints env n init).draws = n := by
  rw [solveFrom_advance env init n n le_rfl hFail hSet]
  simp only [Nat.sub_self]
  simp [solveFrom, hV]

/-- Concrete collaborator instance: the engine fails on every invocation
(with a residual recording the invocation count, and the arm left at `[5]`),
every joint-set succeeds, and the sampler always draws `[1]`. -/
def envAlwaysFail : SolveEnv where
  engine := fun k _ => ⟨some (KError.notConverged (k + 1) ⟨1, 0, 0⟩ ⟨0, 0, 0⟩), [5]⟩
  sample := fun _ => [1]
  repair := fun _ c => c
  setWC := fun _ => none
  setV := fun _ => none

/-- Concrete collaborator instance: the engine fails on its first invocation
(leaving the arm at `[9]`) and succeeds on every later one (leaving the arm
at `[3]`); every joint-set succeeds. -/
def envSucceedSecond : SolveEnv where
  engine := fun k _ =>
    if k = 0 then ⟨some (KError.notConverged 1 ⟨1, 0, 0⟩ ⟨0, 0, 0⟩), [9]⟩
    else ⟨none, [3]⟩
  sample := fun _ => [2]
  repair := fun _ c => c
  setWC := fun _ => none
  setV := fun _ => none

/-- Concrete collaborator instance: the engine always fails, leaving the arm
at `[7]`, and `set_joint_positions_with_constraints` always fails with a
size mismatch. -/
def envSetFails : SolveEnv where
  engine := fun _ _ => ⟨some (KError.notConverged 1 ⟨1, 0, 0⟩ ⟨0, 0, 0⟩), [7]⟩
  sample := fun _ => [1]
  repair := fun _ c => c
  setWC := fun _ => some (KError.sizeMismatch 1 2)
  setV := fun _ => none

/-- Concrete collaborator instance: the engine always fails leaving the arm
at `[9]`; the first draw is `[1]` and later draws are `[2]`;
`set_joint_positions_with_constraints` succeeds on `[1]` but fails with a
size mismatch on `[2]`. -/
def envSetFailsLater : SolveEnv where
  engine := fun _ _ => ⟨some (KError.notConverged 1 ⟨1, 0, 0⟩ ⟨0, 0, 0⟩), [9]⟩
  sample := fun i => if i = 0 then [1] else [2]
  repair := fun _ c => c
  setWC := fun c => if c = [2] then some (KError.sizeMismatch 1 2) else none
  setV := fun _ => none

/-- Counterexample to claim C2 as stated: with `num_max_try = 1` and a
failing engine, the run performs one engine invocation but one — not zero —
random draw: the draw/repair/write also happens after the final attempt. -/
theorem solve_numMaxTry_one_draws_counterexample :
    (solve_with_constraints envAlwaysFail 1 [0]).engineCalls = 1 ∧
    (solve_with_constraints envAlwaysFail 1 [0]).draws = 1 ∧
    (solve_with_constraints envAlwaysFail 1 [0]).draws ≠ 0 := by
  decide

/-- Witness for claim C2's amended theorem at a concrete input:
`num_max_try = 1`, always-failing engine, all sets succeeding. -/
theorem solve_draws_after_every_failure_witness :
    (solve_with_constraints envAlwaysFail 1 [0]).engineCalls = 1 ∧
    (solve_with_constraints envAlwaysFail 1 [0]).draws = 1 :=
  solve_draws_after_every_failure envAlwaysFail [0] 1
    (fun _ _ => rfl) (fun _ _ => rfl) rfl

/-- Witness for claim C4's theorem at a concrete input: the engine fails on
attempt 1 and succeeds on attempt 2 of `num_max_try = 5`; the solver stops
after 2 invocations and 1 draw with the arm at the success configuration. -/
theorem solve_success_at_k_witness :
    solve_with_constraints envSucceedSecond 5 [0] = ⟨none, [3], 2, 1⟩ := by
  have h := solve_success_at_k envSucceedSecond [0] 5 2 (by omega) (by omega)
    (fun j hj => by
      have hj0 : j = 0 := by omega
      subst hj0
      rfl)
    (fun j hj => by
      have hj0 : j = 0 := by omega
      subst hj0
      rfl)
    (by decide)
  rw [h]
  decide

/-- Witness for claim C5's theorem at a concrete input: both attempts of
`num_max_try = 2` fail; the returned outcome is the second attempt's failure
(`num_tried = 2`), not the first attempt's, and the arm is restored. -/
theorem solve_returns_final_failure_witness :
    (solve_with_constraints envAlwaysFail 2 [0]).result =
      some (KError.notConverged 2 ⟨1, 0, 0⟩ ⟨0, 0, 0⟩) ∧
    (solve_with_constraints envAlwaysFail 2 [0]).cfg = [0] := by
  have h := solve_returns_final_failure envAlwaysFail [0] 2 (by omega)
    (fun _ _ => rfl) (fun _ _ => rfl) rfl
  exact ⟨h.1.trans (by decide), h.2⟩

/-- Witness for claim C6's theorem at a concrete input: attempts 0 and 1
fail; the restart write succeeds after attempt 0 but raises a size mismatch
after attempt 1, so the `num_max_try = 4` run aborts with that error after
2 engine invocations and 2 draws, the arm left at the engine's state. -/
theorem solve_aborts_on_set_error_witness :
    solve_with_constraints envSetFailsLater 4 [0] =
      ⟨some (KError.sizeMismatch 1 2), [9], 2, 2⟩ := by
  have h := solve_aborts_on_set_error envSetFailsLater [0] 4 1
    (KError.sizeMismatch 1 2) (by omega)
    (fun j hj => by
      match j, hj with
      | 0, _ => rfl
      | 1, _ => rfl)
    (fun j hj => by
      have hj0 : j = 0 := by omega
      subst hj0
      rfl)
    (by decide)
  rw [h]
  decide

/-- Witness for claim C9's theorem at a concrete input. -/
theorem solve_zero_tries_witness :
    solve_with_constraints envAlwaysFail 0 [4] =
      ⟨some (KError.notConverged 0 ⟨0, 0, 0⟩ ⟨0, 0, 0⟩), [4], 0, 0⟩ :=
  solve_zero_tries envAlwaysFail [4] rfl

/-- Helper for claim C1: along any run of the retry loop in which no
joint-set operation fails, every exit either restores the snapshot (failure
exits, via ik.rs line 101) or leaves the arm at the output of a successful
engine invocation (the success exit at ik.rs line 89). -/
lemma solveFrom_two_state (env : SolveEnv) (init : List ℚ)
    (hWC : ∀ c, env.setWC c = none) (hV : env.setV init = none) :
    ∀ remaining cfg lastErr calls draws,
      ((solveFrom env init remaining cfg lastErr calls draws).result.isSome →
        (solveFrom env init remaining cfg lastErr calls draws).cfg = init) ∧
      ((solveFrom env init remaining cfg lastErr calls draws).result = none →
        ∃ k c, (env.engine k c).result = none ∧
          (solveFrom env init remaining cfg lastErr calls draws).cfg =
            (env.engine k c).cfg) := by
  intro remaining
  induction remaining with
  | zero =>
      intro cfg lastErr calls draws
      constructor
      · intro _
        simp [solveFrom, hV]
      · intro hnone
        simp [solveFrom, hV] at hnone
  | succ r ih =>
      intro cfg lastErr calls draws
      rcases hres : (env.engine calls cfg).result with _ | e
      · have hstep : solveFrom env init (r + 1) cfg lastErr calls draws =
            ⟨none, (env.engine calls cfg).cfg, calls + 1, draws⟩ := by
          simp only [solveFrom, hres]
        constructor
        · intro habs
          rw [hstep] at habs
          simp at habs
        · intro _
          exact ⟨calls, cfg, hres, by rw [hstep]⟩
      · have hstep : solveFrom env init (r + 1) cfg lastErr calls draws =
            solveFrom env init r (env.repair init (env.sample draws)) e
              (calls + 1) (draws + 1) := by
          simp only [solveFrom, hres, hWC]
        rw [hstep]
        exact ih (env.repair init (env.sample draws)) e (calls + 1) (draws + 1)

/-- Claim C1 (amended, proved): when no joint-set operation fails, the arm's
configuration on return from `solve_with_constraints` is in one of exactly
two states — on any failure outcome (exhaustion included) it equals the
pre-call snapshot exactly, and on success it is the configuration produced
by a successful engine invocation — never an intermediate failed trial.
(As stated, with the guarantee extended to error outcomes, the claim is
false: a failing restart write aborts the run with the arm left at the
failed trial configuration; see the counterexample.) -/
theorem solve_two_state (env : SolveEnv) (init : List ℚ) (n : Nat)
    (hWC : ∀ c, env.setWC c = none) (hV : env.setV init = none) :
    ((solve_with_constraints env n init).result.isSome →
      (solve_with_constraints env n init).cfg = init) ∧
    ((solve_with_constraints env n init).result = none →
      ∃ k c, (env.engine k c).result = none ∧
        (solve_with_constraints env n init).cfg = (env.engine k c).cfg) :=
  solveFrom_two_state env init hWC hV n init initialNotConverged 0 0

/-- Counterexample to claim C1 as stated: with the restart write failing
(`envSetFails`), the `num_max_try = 2` run returns an error with the arm
left at `[7]` — the intermediate failed trial configuration the engine
produced — which is not the pre-call snapshot `[0]` (and there is no
converged solution, the call having failed). -/
theorem solve_two_state_counterexample :
    (solve_with_constraints envSetFails 2 [0]).result =
      some (KError.sizeMismatch 1 2) ∧
    (solve_with_constraints envSetFails 2 [0]).cfg = [7] ∧
    ([7] : List ℚ) ≠ [0] := by
  decide

/-- Witness for claim C1's amended theorem at a concrete input: a fully
failing `num_max_try = 1` run with all joint-sets succeeding returns with
the arm at the snapshot. -/
theorem solve_two_state_witness :
    (solve_with_constraints envAlwaysFail 1 [0]).cfg = [0] :=
  (solve_two_state envAlwaysFail [0] 1 (fun _ => rfl) rfl).1 (by decide)

/-- Claim C3 (amended, proved): the freshly sampled and repaired restart
configuration is written with the fallible, validated
`set_joint_positions_with_constraints` (ik.rs line 93) — not with the
unchecked force-set, which the source uses only in `get_reachable_region` —
and its error, if any, is propagated by `?`: if the engine fails on the
first attempt and the restart write fails, the solver returns the write's
error after a single engine invocation and a single draw, even though more
tries remained. -/
theorem solve_restart_write_is_fallible (env : SolveEnv) (init : List ℚ)
    (n : Nat) (e : KError) (hn : 1 ≤ n)
    (hEng : ((env.engine 0 init).result).isSome)
    (hSetFail : env.setWC (env.repair init (env.sample 0)) = some e) :
    solve_with_constraints env n init =
      ⟨some e, (env.engine 0 init).cfg, 1, 1⟩ := by
  obtain ⟨m, rfl⟩ : ∃ m, n = m + 1 := ⟨n - 1, by omega⟩
  obtain ⟨e0, he⟩ := Option.isSome_iff_exists.mp hEng
  simp only [solve_with_constraints, solveFrom, he, hSetFail]

/-- Counterexample to claim C3 as stated: the restart write is not an
unvalidated force-set that can never fail or abort the retry loop — in
`envSetFails` it returns a structural error, and the `num_max_try = 3` run
aborts after a single engine invocation with that error instead of
continuing the remaining retries. -/
theorem solve_restart_write_counterexample :
    (solve_with_constraints envSetFails 3 [0]).result =
      some (KError.sizeMismatch 1 2) ∧
    (solve_with_constraints envSetFails 3 [0]).engineCalls = 1 := by
  decide

/-- Witness for claim C3's amended theorem at a concrete input. -/
theorem solve_restart_write_is_fallible_witness :
    solve_with_constraints envSetFails 3 [0] =
      ⟨some (KError.sizeMismatch 1 2), [7], 1, 1⟩ := by
  have h := solve_restart_write_is_fallible envSetFails [0] 3
    (KError.sizeMismatch 1 2) (by omega) (by decide) (by decide)
  rw [h]
  decide

/-- Modelled from the spec: the continuous-joint repair used by
`modify_to_nearest_angle` (`openrr-planner/src/funcs.rs`, a module of this
repository that is not among the provided source files).  Following §4.2 of
the specification, it returns the angle congruent to `candidate` modulo one
full turn (`2π`) that is numerically nearest to `reference`. -/
noncomputable def nearestAngle (reference candidate : ℝ) : ℝ :=
  candidate +
    (2 * Real.pi) * ((round ((reference - candidate) / (2 * Real.pi)) : ℤ) : ℝ)

/-- Modelled from the spec:
`modify_to_nearest_angle(&initial_angles, &mut new_angles, &limits)`
(`openrr-planner/src/funcs.rs`, called at ik.rs line 92; the module is not
among the provided source files).  Following §4.2 of the specification, for
each joint marked continuous — `limits[i]` is `None`, the `k` crate's
encoding of an unbounded joint — the candidate angle is replaced in place by
the nearest angle congruent to it modulo a full turn, the reference being
the pre-call snapshot; non-continuous joints are left unchanged.  The
argument order follows the source: reference first, candidate second. -/
noncomputable def modify_to_nearest_angle :
    List ℝ → List ℝ → List (Option (ℝ × ℝ)) → List ℝ
  | r :: rs, c :: cs, limit :: ls =>
      (match limit with
       | none => nearestAngle r c
       | some _ => c) :: modify_to_nearest_angle rs cs ls
  | _, cs, _ => cs

/-- The repaired continuous-joint angle lies within half a turn of the
reference. -/
lemma nearestAngle_dist (r c : ℝ) : |nearestAngle r c - r| ≤ Real.pi := by
  have hpos : (0 : ℝ) < 2 * Real.pi := by positivity
  have hval : nearestAngle r c - r =
      (2 * Real.pi) *
        (((round ((r - c) / (2 * Real.pi)) : ℤ) : ℝ) -
          (r - c) / (2 * Real.pi)) := by
    unfold nearestAngle
    field_simp
    ring
  rw [hval, abs_mul, abs_of_pos hpos]
  have hb : |((round ((r - c) / (2 * Real.pi)) : ℤ) : ℝ) -
      (r - c) / (2 * Real.pi)| ≤ 1 / 2 := by
    rw [abs_sub_comm]
    exact abs_sub_round _
  calc (2 * Real.pi) *
        |((round ((r - c) / (2 * Real.pi)) : ℤ) : ℝ) -
          (r - c) / (2 * Real.pi)|
      ≤ (2 * Real.pi) * (1 / 2) := by
        exact mul_le_mul_of_nonneg_left hb (le_of_lt hpos)
    _ = Real.pi := by ring

/-- Claim C7 (confirmed): applying the nearest-angle repair with
`initial_angles` as reference, for every joint marked continuous (limit
`none`) the repaired value is congruent to the sampled candidate value
modulo one full turn (`2π`) and differs from the reference value by at most
`π` in absolute value; for every non-continuous joint the candidate value is
left unchanged. -/
theorem modify_to_nearest_angle_spec (cands refs : List ℝ)
    (ls : List (Option (ℝ × ℝ))) (i : Nat) (hi : i < cands.length)
    (hr : refs.length = cands.length) (hl : ls.length = cands.length) :
    (ls.getD i (some (0, 0)) = none →
      |(modify_to_nearest_angle refs cands ls).getD i 0 - refs.getD i 0| ≤
        Real.pi ∧
      ∃ k : ℤ, (modify_to_nearest_angle refs cands ls).getD i 0 =
        cands.getD i 0 + 2 * Real.pi * (k : ℝ)) ∧
    (ls.getD i (some (0, 0)) ≠ none →
      (modify_to_nearest_angle refs cands ls).getD i 0 = cands.getD i 0) := by
  induction cands generalizing refs ls i with
  | nil => simp at hi
  | cons c cs ih =>
      cases refs with
      | nil => simp at hr
      | cons r rs =>
          cases ls with
          | nil => simp at hl
          | cons limit ls =>
              cases i with
              | zero =>
                  cases limit with
                  | none =>
                      refine ⟨fun _ => ⟨?_, ?_⟩, fun habs => absurd rfl habs⟩
                      · simpa [modify_to_nearest_angle] using
                          nearestAngle_dist r c
                      · exact ⟨round ((r - c) / (2 * Real.pi)),
                          by simp [modify_to_nearest_angle, nearestAngle]⟩
                  | some b =>
                      exact ⟨fun habs => by simp at habs,
                        fun _ => by simp [modify_to_nearest_angle]⟩
              | succ i =>
                  have h := ih rs ls i (by simpa using hi) (by simpa using hr)
                    (by simpa using hl)
                  simpa [modify_to_nearest_angle] using h

/-- A two-joint limit list for the witness below: the first joint is bounded
to `[-1, 1]`, the second is continuous. -/
def witnessLimits : List (Option (ℝ × ℝ)) := [some (-1, 1), none]

/-- A two-joint zero configuration for the witness below. -/
def witnessAngles : List ℝ := [0, 0]

/-- Witness for claim C7's theorem at a concrete input: a chain with a
bounded first joint and a continuous second joint, reference and candidate
both zero, checked at the continuous joint. -/
theorem modify_to_nearest_angle_spec_witness :
    (witnessLimits.getD 1 (some (0, 0)) = none →
      |(modify_to_nearest_angle witnessAngles witnessAngles
          witnessLimits).getD 1 0 - witnessAngles.getD 1 0| ≤ Real.pi ∧
      ∃ k : ℤ, (modify_to_nearest_angle witnessAngles witnessAngles
          witnessLimits).getD 1 0 =
        witnessAngles.getD 1 0 + 2 * Real.pi * (k : ℝ)) ∧
    (witnessLimits.getD 1 (some (0, 0)) ≠ none →
      (modify_to_nearest_angle witnessAngles witnessAngles
          witnessLimits).getD 1 0 = witnessAngles.getD 1 0) :=
  modify_to_nearest_angle_spec witnessAngles witnessAngles witnessLimits 1
    (by simp [witnessAngles]) (by rfl) (by simp [witnessLimits, witnessAngles])

/-- A rigid target pose, `na::Isometry3<T>`: the three translation
components the grid sweep varies, plus the orientation component, which the
sweep copies unchanged from the reference pose (modelled abstractly by one
rational). -/
structure PoseQ where
  x : ℚ
  y : ℚ
  z : ℚ
  rot : ℚ
deriving DecidableEq

/-- The single-shot solver collaborator consumed by `get_reachable_region`
(`ik_solver.solve_with_constraints(&arm, &target_pose, constraints)`,
ik.rs lines 142-144): a deterministic function of the arm's current joint
configuration and the target pose, returning the `Result` together with the
arm configuration after the call (the solver mutates the arm in place). -/
structure RegionEnv where
  engine : List ℚ → PoseQ → EngineStep

/-- Arms are `k::SerialChain` values with interior mutability, handled by
shared reference: joint-position writes go through `&arm`.  To state which
arm a write reaches, arms are identified by store ids and the store maps
each id to that arm's joint configuration. -/
def ArmStore : Type := Nat → List ℚ

/-- Write the joint configuration of the arm `w` in the store. -/
def storeSet (s : ArmStore) (w : Nat) (cfg : List ℚ) : ArmStore :=
  fun j => if j = w then cfg else s j

/-- The half-open stepping loop of `get_reachable_region` (ik.rs
lines 124-129 for z; the y and x sweeps at lines 136-139 repeat the same
`while v < bound` shape inline): collect `lo, lo + step, …` while `< hi`.
The source's scalar is a generic `T: RealField`; over `ℚ` the accumulation
is exact (the spec flags the floating-point boundary nondeterminism as a
known issue, which the claims verified here do not touch).  For `step ≤ 0`
the source loop would never terminate when `lo < hi`; the model returns
`[]` there and no claim depends on that case. -/
def gridPoints (lo hi step : ℚ) : List ℚ :=
  if h : 0 < step then
    if h2 : lo < hi then lo :: gridPoints (lo + step) hi step else []
  else []
termination_by (⌈(hi - lo) / step⌉).toNat
decreasing_by
  have ha : (0 : ℚ) < (hi - lo) / step := div_pos (by linarith) h
  have h1 : 1 ≤ ⌈(hi - lo) / step⌉ := Int.ceil_pos.mpr ha
  have heq : ⌈(hi - (lo + step)) / step⌉ = ⌈(hi - lo) / step⌉ - 1 := by
    have hstep : step ≠ 0 := ne_of_gt h
    have hdiv : (hi - (lo + step)) / step = (hi - lo) / step - 1 := by
      field_simp
      ring
    rw [hdiv, Int.ceil_sub_one]
  simp only [heq]
  omega

/-- The inner x-sweep of `get_reachable_region` (ik.rs lines 138-148): for
each x of the grid, set the target's x translation, force-reset the worker
arm `w` to the pre-call snapshot with `set_joint_positions_unchecked`
(line 141, unvalidated, infallible), solve from there, and append the
translated pose to the collection exactly when the solve returns `Ok`.
The worker arm's configuration is threaded through the store across
iterations, since the solver mutates it. -/
def scanX (env : RegionEnv) (init : List ℚ) (rot y z : ℚ) :
    List ℚ → ArmStore → Nat → List PoseQ → ArmStore × List PoseQ
  | [], s, _, acc => (s, acc)
  | x :: xs, s, w, acc =>
      let target : PoseQ := ⟨x, y, z, rot⟩
      let s1 := storeSet s w init
      let step := env.engine (s1 w) target
      let s2 := storeSet s1 w step.cfg
      scanX env init rot y z xs s2 w
        (if step.result = none then acc ++ [target] else acc)

/-- The y-sweep of one z-slice (ik.rs lines 135-151). -/
def scanYX (env : RegionEnv) (init : List ℚ) (rot z : ℚ) (xs : List ℚ) :
    List ℚ → ArmStore → Nat → List PoseQ → ArmStore × List PoseQ
  | [], s, _, acc => (s, acc)
  | y :: ys, s, w, acc =>
      let r := scanX env init rot y z xs s w acc
      scanYX env init rot z xs ys r.1 w r.2

/-- The z-sweep (ik.rs lines 131-152): each z value runs in a rayon worker
on a fresh clone of the caller's arm (`let arm = arm.clone()`, line 132) —
modelled by a fresh store id initialized with the caller arm's
configuration — and successes are pushed to the mutex-protected shared
vector.  Parallelism only permutes the push order across z-slices; the
model fixes z-major order, immaterial to the membership and frame
properties proved below. -/
def scanZ (env : RegionEnv) (init : List ℚ) (rot : ℚ) (xs ys : List ℚ)
    (caller : Nat) :
    List ℚ → ArmStore → Nat → List PoseQ → ArmStore × List PoseQ
  | [], s, _, acc => (s, acc)
  | z :: zs, s, fresh, acc =>
      let s1 := storeSet s fresh (s caller)
      let r := scanYX env init rot z xs ys s1 fresh acc
      scanZ env init rot xs ys caller zs r.1 (fresh + 1) r.2

/-- `get_reachable_region` (ik.rs lines 107-154): snapshot the caller arm's
joint positions (line 120), build the half-open grids — the y and x point
lists, recomputed inline by each worker with the same bounds and step, are
the same lists every time and are hoisted here — sweep, and return the
collected poses.  The final store is returned alongside so that the frame
effect on the caller's arm is a provable statement. -/
def get_reachable_region (env : RegionEnv) (s : ArmStore) (caller : Nat)
    (initialPose : PoseQ) (maxPoint minPoint : Vec3Q)
    (unitCheckLength : ℚ) : List PoseQ × ArmStore :=
  let init := s caller
  let zs := gridPoints minPoint.z maxPoint.z unitCheckLength
  let ys := gridPoints minPoint.y maxPoint.y unitCheckLength
  let xs := gridPoints minPoint.x maxPoint.x unitCheckLength
  let r := scanZ env init initialPose.rot xs ys caller zs s (caller + 1) []
  (r.2, r.1)

/-- The x-sweep writes joint positions only through the worker arm `w`. -/
lemma scanX_store_ne (env : RegionEnv) (init : List ℚ) (rot y z : ℚ) :
    ∀ (xs : List ℚ) (s : ArmStore) (w : Nat) (acc : List PoseQ) (j : Nat),
      j ≠ w → (scanX env init rot y z xs s w acc).1 j = s j := by
  intro xs
  induction xs with
  | nil =>
      intro s w acc j hj
      rfl
  | cons x xs ih =>
      intro s w acc j hj
      simp only [scanX]
      rw [ih _ w _ j hj]
      simp [storeSet, hj]

/-- The y-sweep writes joint positions only through the worker arm `w`. -/
lemma scanYX_store_ne (env : RegionEnv) (init : List ℚ) (rot z : ℚ)
    (xs : List ℚ) :
    ∀ (ys : List ℚ) (s : ArmStore) (w : Nat) (acc : List PoseQ) (j : Nat),
      j ≠ w → (scanYX env init rot z xs ys s w acc).1 j = s j := by
  intro ys
  induction ys with
  | nil =>
      intro s w acc j hj
      rfl
  | cons y ys ih =>
      intro s w acc j hj
      simp only [scanYX]
      rw [ih _ w _ j hj]
      exact scanX_store_ne env init rot y z xs s w acc j hj

/-- The z-sweep, handing each slice a fresh worker id above the caller's,
never writes the caller's arm. -/
lemma scanZ_store_caller (env : RegionEnv) (init : List ℚ) (rot : ℚ)
    (xs ys : List ℚ) (caller : Nat) :
    ∀ (zs : List ℚ) (s : ArmStore) (fresh : Nat) (acc : List PoseQ),
      caller < fresh →
      (scanZ env init rot xs ys caller zs s fresh acc).1 caller = s caller := by
  intro zs
  induction zs with
  | nil =>
      intro s fresh acc hc
      rfl
  | cons z zs ih =>
      intro s fresh acc hc
      simp only [scanZ]
      rw [ih _ (fresh + 1) _ (by omega)]
      rw [scanYX_store_ne env init rot z xs ys _ fresh _ caller (by omega)]
      simp [storeSet]

/-- Claim C10 (confirmed): `get_reachable_region` never mutates the
caller's arm: the snapshot is read once (ik.rs line 120), every
joint-position write of the grid sweep goes through a per-z-slice clone
(line 132), and on return the caller's arm holds exactly the joint
configuration it had before the call. -/
theorem get_reachable_region_caller_arm_unchanged (env : RegionEnv)
    (s : ArmStore) (caller : Nat) (initialPose : PoseQ)
    (maxPoint minPoint : Vec3Q) (unitCheckLength : ℚ) :
    (get_reachable_region env s caller initialPose maxPoint minPoint
        unitCheckLength).2 caller = s caller := by
  exact scanZ_store_caller env (s caller) initialPose.rot
    (gridPoints minPoint.x maxPoint.x unitCheckLength)
    (gridPoints minPoint.y maxPoint.y unitCheckLength) caller
    (gridPoints minPoint.z maxPoint.z unitCheckLength) s (caller + 1) []
    (by omega)

/-- Membership in the x-sweep's output: because the worker arm is reset to
the snapshot immediately before every solve, each solve runs from `init`
regardless of the configuration the previous solve left behind, and a pose
joins the collection exactly when its solve succeeded. -/
lemma scanX_mem (env : RegionEnv) (init : List ℚ) (rot y z : ℚ) :
    ∀ (xs : List ℚ) (s : ArmStore) (w : Nat) (acc : List PoseQ) (p : PoseQ),
      p ∈ (scanX env init rot y z xs s w acc).2 ↔
        p ∈ acc ∨ ∃ x ∈ xs, p = ⟨x, y, z, rot⟩ ∧
          (env.engine init ⟨x, y, z, rot⟩).result = none := by
  intro xs
  induction xs with
  | nil =>
      intro s w acc p
      simp [scanX]
  | cons x xs ih =>
      intro s w acc p
      have hw : (storeSet s w init) w = init := by simp [storeSet]
      simp only [scanX, hw]
      rw [ih]
      by_cases hres : (env.engine init ⟨x, y, z, rot⟩).result = none
      · rw [if_pos hres]
        simp only [List.mem_append, List.mem_cons, List.not_mem_nil, or_false]
        constructor
        · rintro ((hp | hp) | ⟨x1, hx1, hp, hs⟩)
          · exact Or.inl hp
          · exact Or.inr ⟨x, Or.inl rfl, hp, hres⟩
          · exact Or.inr ⟨x1, Or.inr hx1, hp, hs⟩
        · rintro (hp | ⟨x1, rfl | hx1, hp, hs⟩)
          · exact Or.inl (Or.inl hp)
          · exact Or.inl (Or.inr hp)
          · exact Or.inr ⟨x1, hx1, hp, hs⟩
      · rw [if_neg hres]
        simp only [List.mem_cons]
        constructor
        · rintro (hp | ⟨x1, hx1, hp, hs⟩)
          · exact Or.inl hp
          · exact Or.inr ⟨x1, Or.inr hx1, hp, hs⟩
        · rintro (hp | ⟨x1, rfl | hx1, hp, hs⟩)
          · exact Or.inl hp
          · exact absurd hs hres
          · exact Or.inr ⟨x1, hx1, hp, hs⟩

/-- Membership in one z-slice's output. -/
lemma scanYX_mem (env : RegionEnv) (init : List ℚ) (rot z : ℚ)
    (xs : List ℚ) :
    ∀ (ys : List ℚ) (s : ArmStore) (w : Nat) (acc : List PoseQ) (p : PoseQ),
      p ∈ (scanYX env init rot z xs ys s w acc).2 ↔
        p ∈ acc ∨ ∃ y ∈ ys, ∃ x ∈ xs, p = ⟨x, y, z, rot⟩ ∧
          (env.engine init ⟨x, y, z, rot⟩).result = none := by
  intro ys
  induction ys with
  | nil =>
      intro s w acc p
      simp [scanYX]
  | cons y ys ih =>
      intro s w acc p
      simp only [scanYX]
      rw [ih, scanX_mem]
      simp only [List.mem_cons]
      constructor
      · rintro ((hp | ⟨x1, hx1, hp, hs⟩) | ⟨y1, hy1, x1, hx1, hp, hs⟩)
        · exact Or.inl hp
        · exact Or.inr ⟨y, Or.inl rfl, x1, hx1, hp, hs⟩
        · exact Or.inr ⟨y1, Or.inr hy1, x1, hx1, hp, hs⟩
      · rintro (hp | ⟨y1, (rfl | hy1), x1, hx1, hp, hs⟩)
        · exact Or.inl (Or.inl hp)
        · exact Or.inl (Or.inr ⟨x1, hx1, hp, hs⟩)
        · exact Or.inr ⟨y1, hy1, x1, hx1, hp, hs⟩

/-- Membership in the full sweep's output. -/
lemma scanZ_mem (env : RegionEnv) (init : List ℚ) (rot : ℚ)
    (xs ys : List ℚ) (caller : Nat) :
    ∀ (zs : List ℚ) (s : ArmStore) (fresh : Nat) (acc : List PoseQ)
      (p : PoseQ),
      p ∈ (scanZ env init rot xs ys caller zs s fresh acc).2 ↔
        p ∈ acc ∨ ∃ z ∈ zs, ∃ y ∈ ys, ∃ x ∈ xs, p = ⟨x, y, z, rot⟩ ∧
          (env.engine init ⟨x, y, z, rot⟩).result = none := by
  intro zs
  induction zs with
  | nil =>
      intro s fresh acc p
      simp [scanZ]
  | cons z zs ih =>
      intro s fresh acc p
      simp only [scanZ]
      rw [ih, scanYX_mem]
      simp only [List.mem_cons]
      constructor
      · rintro ((hp | ⟨y1, hy1, x1, hx1, hp, hs⟩) | ⟨z1, hz1, hrest⟩)
        · exact Or.inl hp
        · exact Or.inr ⟨z, Or.inl rfl, y1, hy1, x1, hx1, hp, hs⟩
        · exact Or.inr ⟨z1, Or.inr hz1, hrest⟩
      · rintro (hp | ⟨z1, (rfl | hz1), hrest⟩)
        · exact Or.inl (Or.inl hp)
        · exact Or.inl (Or.inr hrest)
        · exact Or.inr ⟨z1, hz1, hrest⟩

/-- Claim C8 (confirmed): at every point of the half-open grid the worker's
arm copy is first reset (unvalidated) to the pre-call snapshot and the
reference pose translated to `(x, y, z)` is then solved from that snapshot;
the translated pose belongs to the returned collection if and only if the
solve succeeds — so each per-grid-point non-convergence merely leaves its
pose out of the (always normally returned) collection. -/
theorem get_reachable_region_mem (env : RegionEnv) (s : ArmStore)
    (caller : Nat) (initialPose : PoseQ) (maxPoint minPoint : Vec3Q)
    (unitCheckLength : ℚ) (p : PoseQ) :
    p ∈ (get_reachable_region env s caller initialPose maxPoint minPoint
        unitCheckLength).1 ↔
      p.x ∈ gridPoints minPoint.x maxPoint.x unitCheckLength ∧
      p.y ∈ gridPoints minPoint.y maxPoint.y unitCheckLength ∧
      p.z ∈ gridPoints minPoint.z maxPoint.z unitCheckLength ∧
      p.rot = initialPose.rot ∧
      (env.engine (s caller) p).result = none := by
  simp only [get_reachable_region]
  rw [scanZ_mem]
  simp only [List.not_mem_nil, false_or]
  constructor
  · rintro ⟨z1, hz1, y1, hy1, x1, hx1, rfl, hs1⟩
    exact ⟨hx1, hy1, hz1, rfl, hs1⟩
  · rintro ⟨hx, hy, hz, hrot, hs1⟩
    refine ⟨p.z, hz, p.y, hy, p.x, hx, ?_, ?_⟩
    · cases p
      simp only at hrot
      rw [hrot]
    · have hp : (⟨p.x, p.y, p.z, initialPose.rot⟩ : PoseQ) = p := by
        cases p
        simp only at hrot
        rw [hrot]
      rw [hp]
      exact hs1
